import Mathlib

/-!
Shallow embedding of the Aqua-historikk fetch queue and retry/backoff
controller, translated from src/build_transfers_backfill.py and
src/update_transfers_daily.py, together with theorems settling the
specification claims about it.

Modelling conventions:
* SQLite epoch timestamps are `Int`; Python floats (the backoff values,
  which are exact dyadic rationals here) are `ℚ`; Python `int()`
  truncation toward zero is `pyInt`.
* A SQL table keyed by a TEXT primary key is a `List (String × row)` in
  table order; `SELECT ... ORDER BY ... LIMIT 1` is a fold picking the
  first minimal element; `UPDATE ... WHERE pred` maps over all rows and
  reports the affected-row count, exactly as `cursor.rowcount` does.
* Remote-fetch behaviour (the external `fetch_transfers` collaborator)
  is an input datum (`HttpResult` / `DailyEvent`): the worker code under
  verification is everything that happens around that call.
-/

namespace AquaHistorikk

/-- Lexicographic strict order on character lists, the analogue of
SQLite TEXT comparison used for `ORDER BY permit_key`. -/
def strLt (a b : List Char) : Bool :=
  match a, b with
  | [], [] => false
  | [], _ :: _ => true
  | _ :: _, [] => false
  | c :: as_, d :: bs => if c = d then strLt as_ bs else decide (c < d)

/-- Lexicographic order, non-strict. -/
def strLe (a b : List Char) : Bool :=
  strLt a b || decide (a = b)

/-- Insert into a sorted list (stable: goes after equal elements). -/
def insertBy (le : α → α → Bool) (x : α) : List α → List α
  | [] => [x]
  | y :: ys => if le x y then x :: y :: ys else y :: insertBy le x ys

/-- Insertion sort by a boolean comparison; models SQL ORDER BY. -/
def sortBy (le : α → α → Bool) : List α → List α
  | [] => []
  | x :: xs => insertBy le x (sortBy le xs)

/-- Python `int()` truncation toward zero on an exact rational. -/
def pyInt (q : ℚ) : ℤ :=
  if 0 ≤ q then ⌊q⌋ else -⌊-q⌋

namespace Backfill

/-- Queue row status, the CHECK constraint of `transfers_backfill_queue`. -/
inductive Status
  | pending
  | in_progress
  | done
  | failed
deriving DecidableEq, Repr

/-- One row of `transfers_backfill_queue` (key kept outside the row). -/
structure Row where
  status : Status
  attempts : Nat
  next_retry_at : Option Int
  locked_at : Option Int
  lock_owner : Option String
  last_error : Option String
  updated_at : Int
deriving DecidableEq, Repr

/-- RetryPolicy dataclass of build_transfers_backfill.py. -/
structure RetryPolicy where
  max_attempts : Nat
  base_sleep : ℚ
  max_sleep : ℚ
  jitter : ℚ
deriving DecidableEq, Repr

/-- Default field values of the RetryPolicy dataclass
(max_attempts=12, base_sleep=1.0, max_sleep=120.0, jitter=0.25). -/
def defaultPolicy : RetryPolicy := ⟨12, 1, 120, 1/4⟩

/-- compute_backoff of build_transfers_backfill.py: server hint capped at
max_sleep when present, otherwise base_sleep * 2^(attempt_no-1) capped at
max_sleep. -/
def compute_backoff (policy : RetryPolicy) (attempt_no : Nat)
    (retry_after_s : Option ℤ) : ℚ :=
  match retry_after_s with
  | some ra => min (ra : ℚ) policy.max_sleep
  | none => min (policy.base_sleep * 2 ^ (attempt_no - 1)) policy.max_sleep

/-- Eligibility predicate of claim_one, shared verbatim by its SELECT and
its conditional UPDATE: pending, or failed with an elapsed non-NULL
next_retry_at, or in_progress whose lock is NULL or at/before the
staleness cutoff (stale = t - lock_timeout_s). -/
def eligible (t stale : Int) (r : Row) : Bool :=
  decide (r.status = .pending)
  || (decide (r.status = .failed)
      && (match r.next_retry_at with
          | some n => decide (n ≤ t)
          | none => false))
  || (decide (r.status = .in_progress)
      && (match r.locked_at with
          | none => true
          | some l => decide (l ≤ stale)))

/-- The CASE status WHEN ... expression of claim_one's ORDER BY. -/
def statusTier : Status → Int
  | .pending => 0
  | .failed => 1
  | .in_progress => 2
  | .done => 9

/-- The full ORDER BY key of claim_one:
(status tier, COALESCE(next_retry_at, 0), updated_at). -/
def orderKey (r : Row) : Int × Int × Int :=
  (statusTier r.status, r.next_retry_at.getD 0, r.updated_at)

/-- Strict lexicographic comparison of ORDER BY keys. -/
def ltKey (a b : Int × Int × Int) : Bool :=
  decide (a.1 < b.1)
  || (decide (a.1 = b.1)
      && (decide (a.2.1 < b.2.1)
          || (decide (a.2.1 = b.2.1) && decide (a.2.2 < b.2.2))))

/-- First minimal element of a list under `ltKey ∘ f`, i.e.
`SELECT ... ORDER BY f LIMIT 1` over rows in table order. -/
def selectMin (f : α → Int × Int × Int) (l : List α) : Option α :=
  l.foldl
    (fun acc x =>
      match acc with
      | none => some x
      | some b => if ltKey (f x) (f b) then some x else some b)
    none

/-- The SELECT of claim_one: first eligible row in ORDER BY order. -/
def selectOne (t stale : Int) (rows : List (String × Row)) : Option String :=
  (selectMin (fun kr => orderKey kr.2)
    (rows.filter (fun kr => eligible t stale kr.2))).map (·.1)

/-- WHERE clause of claim_one's conditional UPDATE, for one table row:
key matches and the eligibility predicate holds. -/
def hit (t stale : Int) (k : String) (kr : String × Row) : Bool :=
  decide (kr.1 = k) && eligible t stale kr.2

/-- The SET clause of claim_one's UPDATE:
status='in_progress', locked_at=t, lock_owner, updated_at=t. -/
def claimRow (t : Int) (owner : String) (r : Row) : Row :=
  { r with status := .in_progress, locked_at := some t,
           lock_owner := some owner, updated_at := t }

/-- Conditional UPDATE of claim_one: rewrite every matching row and
return the new table plus the affected-row count (cursor.rowcount). -/
def condUpdate (t stale : Int) (owner k : String)
    (rows : List (String × Row)) : List (String × Row) × Nat :=
  (rows.map (fun kr => if hit t stale k kr then (kr.1, claimRow t owner kr.2) else kr),
   rows.countP (fun kr => hit t stale k kr))

/-- claim_one of build_transfers_backfill.py with the SELECT taken on a
possibly earlier snapshot `sel` of the table while the UPDATE runs
atomically against the current table `rows` — the two SQL statements are
individually atomic but a concurrent claimant may commit in between.
Returns None when the SELECT finds nothing or when the conditional
UPDATE affected a row count different from 1 (the race was lost). -/
def claim_one_racy (sel : List (String × Row)) (t : Int)
    (lock_owner : String) (lock_timeout_s : Int)
    (rows : List (String × Row)) : Option String × List (String × Row) :=
  let stale := t - lock_timeout_s
  match selectOne t stale sel with
  | none => (none, rows)
  | some k =>
    let upd := condUpdate t stale lock_owner k rows
    if upd.2 = 1 then (some k, upd.1) else (none, upd.1)

/-- claim_one run without interference: SELECT and UPDATE both see the
same table state. -/
def claim_one (t : Int) (lock_owner : String) (lock_timeout_s : Int)
    (rows : List (String × Row)) : Option String × List (String × Row) :=
  claim_one_racy rows t lock_owner lock_timeout_s rows

/-- mark_done of build_transfers_backfill.py applied to the row of the
given key: status='done', lock and error fields cleared, updated_at=t
(attempts and next_retry_at are not touched by the SQL). -/
def mark_done (t : Int) (r : Row) : Row :=
  { r with status := .done, locked_at := none, lock_owner := none,
           last_error := none, updated_at := t }

/-- mark_failed of build_transfers_backfill.py applied to the row of the
given key: status='failed', attempts stored, next_retry_at = t +
retry_in_s when given else NULL, lock cleared, error truncated to 2000
characters. -/
def mark_failed (t : Int) (attempts : Nat) (err : String)
    (retry_in_s : Option Int) (r : Row) : Row :=
  { r with status := .failed, attempts := attempts,
           next_retry_at := retry_in_s.map (fun s => t + s),
           locked_at := none, lock_owner := none,
           last_error := some (err.take 2000), updated_at := t }

/-- The freshly inserted row of seed_queue:
('pending', 0, NULL, NULL, NULL, NULL, t). -/
def seedRow (t : Int) : Row :=
  ⟨.pending, 0, none, none, none, none, t⟩

/-- Membership test for a key in the queue table (the PRIMARY KEY
conflict check behind INSERT OR IGNORE). -/
def hasKey (rows : List (String × Row)) (k : String) : Bool :=
  rows.any (fun kr => decide (kr.1 = k))

/-- seed_queue of build_transfers_backfill.py: for each key of
permit_current (already sorted, optionally truncated to `limit`),
INSERT OR IGNORE a pending row; returns the new table and the number of
rows actually inserted. -/
def seed_queue (t : Int) (keys : List String) (limit : Option Nat)
    (rows : List (String × Row)) : List (String × Row) × Nat :=
  let ks := match limit with
    | some n => keys.take n
    | none => keys
  ks.foldl
    (fun acc k =>
      if hasKey acc.1 k then acc else (acc.1 ++ [(k, seedRow t)], acc.2 + 1))
    (rows, 0)

/-- Row lookup by primary key. -/
def lookupRow (k : String) (rows : List (String × Row)) : Option Row :=
  (rows.find? (fun kr => decide (kr.1 = k))).map (·.2)

/-- The PRIMARY KEY invariant: each key appears at most once. -/
def keysNodup (rows : List (String × Row)) : Prop :=
  (rows.map (·.1)).Nodup

/-- What the underlying requests-based fetch_transfers call did, as seen
by fetch_transfers_with_handling: a payload (ajourDate plus transfer
records), or one of the exception classes it distinguishes. `httpExc`
carries the response status code and the parsed integer Retry-After
header when present. -/
inductive HttpResult
  | ok (ajour : Option String) (records : List String)
  | timeoutExc
  | connExc
  | httpExc (status_code : Option Int) (retry_after : Option Int)
  | otherExc
deriving DecidableEq, Repr

/-- Error classification produced by fetch_transfers_with_handling. -/
inductive FetchErr
  | rateLimit (retry_after_s : Option Int)
  | transientErr
  | hard
deriving DecidableEq, Repr

/-- fetch_transfers_with_handling of build_transfers_backfill.py:
Timeout/ConnectionError become transient; HTTP 404 becomes a successful
empty payload {"ajourDate": None, "transfers": []}; HTTP 429 becomes a
rate-limit error carrying the Retry-After hint; HTTP 5xx becomes
transient; any other HTTPError or exception propagates as a hard
failure. -/
def fetch_transfers_with_handling (h : HttpResult) :
    Except FetchErr (Option String × List String) :=
  match h with
  | .ok a rs => .ok (a, rs)
  | .timeoutExc => .error .transientErr
  | .connExc => .error .transientErr
  | .httpExc sc ra =>
    if sc = some 404 then .ok (none, [])
    else if sc = some 429 then .error (.rateLimit ra)
    else if (match sc with
             | some s => decide (500 ≤ s) && decide (s ≤ 599)
             | none => false) then .error .transientErr
    else .error .hard
  | .otherExc => .error .hard

/-- Observable effects of one process_one_permit call: the queue row it
wrote, how many remote fetches it performed, the attempt_no argument of
each compute_backoff call it made, and the payload it handed to
upsert_transfers (None when the fetch failed). -/
structure ProcResult where
  row : Row
  fetches : Nat
  backoffCalls : List Nat
  persisted : Option (Option String × List String)
deriving DecidableEq, Repr

/-- Loop body of process_one_permit. `attempt_no` is the in-process
attempt counter, `attempts_total` the counter seeded from the queue row;
both are incremented at the top of each iteration. `results` is the
stream of outcomes successive fetches would produce; every branch of the
source loop returns, so only the head is ever consumed. The empty stream
(a fetch that never returns) yields none. -/
def procAux (t : Int) (policy : RetryPolicy) (attempt_no attempts_total : Nat)
    (results : List HttpResult) (r : Row) : Option ProcResult :=
  match results with
  | [] => none
  | h :: _rest =>
    let an := attempt_no + 1
    let tot := attempts_total + 1
    match fetch_transfers_with_handling h with
    | .ok payload =>
      some ⟨mark_done t r, 1, [], some payload⟩
    | .error (.rateLimit ra) =>
      if policy.max_attempts ≤ tot then
        some ⟨mark_failed t tot "RateLimitError" none r, 1, [], none⟩
      else
        some ⟨mark_failed t tot "RateLimitError"
          (some (pyInt (compute_backoff policy an ra))) r, 1, [an], none⟩
    | .error .transientErr =>
      if policy.max_attempts ≤ tot then
        some ⟨mark_failed t tot "TransientAPIError" none r, 1, [], none⟩
      else
        some ⟨mark_failed t tot "TransientAPIError"
          (some (pyInt (compute_backoff policy an none))) r, 1, [an], none⟩
    | .error .hard =>
      some ⟨mark_failed t tot "Unhandled" none r, 1, [], none⟩

/-- process_one_permit of build_transfers_backfill.py for the already
claimed row `r`: attempts_total starts from the row's attempts column,
attempt_no from 0. -/
def process_one_permit (t : Int) (policy : RetryPolicy)
    (results : List HttpResult) (r : Row) : Option ProcResult :=
  procAux t policy 0 r.attempts results r

/-- The queue row after one claimed-and-processed cycle whose single
fetch produced outcome `h` (the row is unchanged on the impossible
empty-stream case). -/
def stepOutcome (t : Int) (policy : RetryPolicy) (h : HttpResult)
    (r : Row) : Row :=
  match process_one_permit t policy [h] r with
  | some res => res.row
  | none => r

end Backfill

namespace Daily

/-- One row of transfers_fetch_state (key kept outside the row). -/
structure FetchState where
  last_fetched_at : Option Int
  last_ajour_date : Option String
  last_status : Option String
  last_error : Option String
  next_retry_at : Option Int
deriving DecidableEq, Repr

/-- State lookup by primary key. -/
def lookupState (st : List (String × FetchState)) (k : String) :
    Option FetchState :=
  (st.find? (fun p => decide (p.1 = k))).map (·.2)

/-- mark_state of update_transfers_daily.py: INSERT ... ON CONFLICT
DO UPDATE, i.e. upsert the full record for the key, with
last_fetched_at = now and the error truncated to 2000 characters. -/
def mark_state (t : Int) (st : List (String × FetchState)) (k : String)
    (status : String) (ajour_date : Option String) (err : Option String)
    (next_retry_at : Option Int) : List (String × FetchState) :=
  let fs : FetchState :=
    ⟨some t, ajour_date, some status, err.map (fun e => e.take 2000),
     next_retry_at⟩
  if st.any (fun p => decide (p.1 = k)) then
    st.map (fun p => if p.1 = k then (k, fs) else p)
  else
    st ++ [(k, fs)]

/-- One ownership_history row, reduced to the two columns
pick_today_permits reads. valid_from is an ISO date TEXT value. -/
structure OwnershipRow where
  permit_key : String
  valid_from : List Char
deriving DecidableEq, Repr

/-- First-occurrence deduplication with an explicit seen set; the
effect of SELECT DISTINCT over rows in table order, and of the
seen-set loop in pick_today_permits. -/
def dedupF (seen : List String) : List String → List String
  | [] => []
  | k :: rest =>
    if seen.contains k then dedupF seen rest
    else k :: dedupF (k :: seen) rest

/-- The seen set after running dedupF over a list. -/
def pushSeen (seen : List String) : List String → List String
  | [] => seen
  | k :: rest =>
    if seen.contains k then pushSeen seen rest
    else pushSeen (k :: seen) rest

/-- The combining loop of pick_today_permits: append each unseen key,
then break as soon as the output has reached `limit` entries. -/
def combineLoop (limit : Nat) (out seen : List String) :
    List String → List String
  | [] => out
  | k :: rest =>
    if seen.contains k then
      if limit ≤ out.length then out else combineLoop limit out seen rest
    else
      let out2 := out ++ [k]
      if limit ≤ out2.length then out2
      else combineLoop limit out2 (k :: seen) rest

/-- WHERE clause of the stale query: never fetched or fetched before
stale_before, and any next_retry_at cooldown elapsed by t. -/
def staleCond (stale_before t : Int) (s : Option FetchState) : Bool :=
  (match s.bind (·.last_fetched_at) with
   | none => true
   | some f => decide (f < stale_before))
  && (match s.bind (·.next_retry_at) with
      | none => true
      | some nr => decide (nr ≤ t))

/-- ORDER BY of the stale query:
COALESCE(s.last_fetched_at, 0) ASC, pc.permit_key. -/
def staleLe (st : List (String × FetchState)) (k1 k2 : String) : Bool :=
  let f1 := ((lookupState st k1).bind (·.last_fetched_at)).getD 0
  let f2 := ((lookupState st k2).bind (·.last_fetched_at)).getD 0
  decide (f1 < f2) || (decide (f1 = f2) && strLe k1.data k2.data)

/-- The recent-changes key list of pick_today_permits: DISTINCT keys of
ownership_history rows with valid_from ≥ changed_since_date, in table
order. -/
def recentKeys (changed_since_date : List Char)
    (ownership : List OwnershipRow) : List String :=
  dedupF []
    ((ownership.filter
        (fun o => strLe changed_since_date o.valid_from)).map (·.permit_key))

/-- The stale query of pick_today_permits minus its LIMIT: eligible keys
of permit_current, ordered least-recently-fetched first then by key. -/
def staleSorted (stale_before t : Int) (keyUniverse : List String)
    (st : List (String × FetchState)) : List String :=
  sortBy (staleLe st)
    (keyUniverse.filter (fun k => staleCond stale_before t (lookupState st k)))

/-- pick_today_permits of update_transfers_daily.py. The strftime
conversion of the changed-since epoch cutoff to an ISO date string is an
external library call, passed in as epochToDate. -/
def pick_today_permits (t : Int) (epochToDate : Int → List Char)
    (changed_since_days stale_after_days : Int) (limit : Nat)
    (ownership : List OwnershipRow) (keyUniverse : List String)
    (st : List (String × FetchState)) : List String :=
  let changed_since_date := epochToDate (t - changed_since_days * 86400)
  let stale_before := t - stale_after_days * 86400
  let recent_keys := recentKeys changed_since_date ownership
  let stale_keys := (staleSorted stale_before t keyUniverse st).take limit
  combineLoop limit [] [] (recent_keys ++ stale_keys)

/-- Modelled from the spec claim, for comparison with
pick_today_permits: the recently-changed keys A followed by the stale
keys B drawn from the full universe (no inner LIMIT), deduplicated
keeping the first occurrence and truncated to limit. -/
def selectorSpec (t : Int) (epochToDate : Int → List Char)
    (changed_since_days stale_after_days : Int) (limit : Nat)
    (ownership : List OwnershipRow) (keyUniverse : List String)
    (st : List (String × FetchState)) : List String :=
  let changed_since_date := epochToDate (t - changed_since_days * 86400)
  let stale_before := t - stale_after_days * 86400
  (dedupF [] (recentKeys changed_since_date ownership ++
      staleSorted stale_before t keyUniverse st)).take limit

/-- What fetch_transfers did for one key during the daily run, as
classified by the except-clauses of run_daily. -/
inductive DailyEvent
  | ok (ajour : Option String) (records : List String)
  | httpError (status_code : Option Int) (retry_after : Option Int)
  | timeoutErr
  | otherErr
deriving DecidableEq, Repr

/-- Per-item counters of run_daily. -/
structure DailyCounters where
  okCount : Nat
  rate_limited : Nat
  failedCount : Nat
deriving DecidableEq, Repr

/-- Loop body of run_daily for one key: updates the state store and the
counters, and reports the records handed to upsert_transfers (none when
nothing was persisted). A 404 HTTPError is normalized to a successful
empty upsert with status ok_404_no_transfers; a 429 sets a cooldown of
Retry-After (default 30) seconds; every other HTTPError, Timeout or
unclassified exception is recorded as failed with no cooldown. -/
def processDailyItem (t : Int) (k : String) (ev : DailyEvent)
    (st : List (String × FetchState)) (c : DailyCounters) :
    List (String × FetchState) × DailyCounters × Option (List String) :=
  match ev with
  | .ok ajour records =>
    (mark_state t st k "ok" ajour none none,
     { c with okCount := c.okCount + 1 }, some records)
  | .httpError sc ra =>
    if sc = some 404 then
      (mark_state t st k "ok_404_no_transfers" none none none,
       { c with okCount := c.okCount + 1 }, some [])
    else if sc = some 429 then
      let backoff := ra.getD 30
      (mark_state t st k "rate_limited" none (some "HTTP 429")
         (some (t + backoff)),
       { c with rate_limited := c.rate_limited + 1 }, none)
    else
      (mark_state t st k "failed" none (some "HTTPError") none,
       { c with failedCount := c.failedCount + 1 }, none)
  | .timeoutErr =>
    (mark_state t st k "failed" none (some "Timeout") none,
     { c with failedCount := c.failedCount + 1 }, none)
  | .otherErr =>
    (mark_state t st k "failed" none (some "Exception") none,
     { c with failedCount := c.failedCount + 1 }, none)

/-- Observable result of one run_daily invocation. -/
structure DailyRunResult where
  state : List (String × FetchState)
  counters : DailyCounters
  processed : List String
  exitCode : Option Nat
deriving Repr

/-- The for-loop of run_daily over the selected keys. -/
def runItems (t : Int) (fetchRes : String → DailyEvent)
    (st : List (String × FetchState)) (c : DailyCounters)
    (processed : List String) :
    List String → List (String × FetchState) × DailyCounters × List String
  | [] => (st, c, processed)
  | k :: rest =>
    let r := processDailyItem t k (fetchRes k) st c
    runItems t fetchRes r.1 r.2.1 (processed ++ [k]) rest

/-- run_daily of update_transfers_daily.py: select the day's keys,
process every one of them in order, then raise SystemExit(2) iff the
rate-limited count exceeds max_rate_limited. -/
def run_daily (t : Int) (epochToDate : Int → List Char) (limit : Nat)
    (changed_since_days stale_after_days : Int) (max_rate_limited : Nat)
    (ownership : List OwnershipRow) (keyUniverse : List String)
    (st : List (String × FetchState)) (fetchRes : String → DailyEvent) :
    DailyRunResult :=
  let keys := pick_today_permits t epochToDate changed_since_days
    stale_after_days limit ownership keyUniverse st
  let r := runItems t fetchRes st ⟨0, 0, 0⟩ [] keys
  ⟨r.1, r.2.1, r.2.2,
   if max_rate_limited < r.2.1.rate_limited then some 2 else none⟩

/-- Command-line arguments of update_transfers_daily.py with their
argparse defaults. -/
structure DailyArgs where
  limit : Nat
  changed_since_days : Int
  stale_after_days : Int
  max_rate_limited : Nat
deriving DecidableEq, Repr

/-- The argparse defaults of parse_args. -/
def defaultArgs : DailyArgs := ⟨300, 7, 30, 50⟩

/-- The module entry point of update_transfers_daily.py: parse_args then
run_daily. The call passes limit, pace, timeout, changed_since_days and
stale_after_days through but omits max_rate_limited, so run_daily always
runs with its own default ceiling of 50 regardless of the
--max-rate-limited flag. -/
def mainDaily (t : Int) (epochToDate : Int → List Char) (args : DailyArgs)
    (ownership : List OwnershipRow) (keyUniverse : List String)
    (st : List (String × FetchState)) (fetchRes : String → DailyEvent) :
    DailyRunResult :=
  run_daily t epochToDate args.limit args.changed_since_days
    args.stale_after_days 50 ownership keyUniverse st fetchRes

end Daily

namespace Backfill

/-- Modelled from the spec claim wording, for comparison with the
eligibility predicate of claim_one: a row is claimable iff it is
pending, or failed with an elapsed non-NULL next_retry_at, or
in_progress with no leased_at or with a lease strictly older than
lease_timeout. -/
def specClaimEligible (t lock_timeout_s : Int) (r : Row) : Bool :=
  decide (r.status = .pending)
  || (decide (r.status = .failed)
      && (match r.next_retry_at with
          | some n => decide (n ≤ t)
          | none => false))
  || (decide (r.status = .in_progress)
      && (match r.locked_at with
          | none => true
          | some l => decide (lock_timeout_s < t - l)))

end Backfill

open Backfill Daily

/-- C5: compute_delay (compute_backoff) is pure: with a hint the result
is min(hint, max_delay) regardless of attempt_no; without a hint it is
min(base_delay * 2^(attempt_no-1), max_delay), non-decreasing in
attempt_no (for attempt_no ≥ 1 and non-negative base) and capped at
max_delay; with the default policy (base 1.0, max 120.0) attempts 1..8
yield 1, 2, 4, 8, 16, 32, 64, 120. -/
theorem compute_backoff_spec :
    (∀ (p : RetryPolicy) (n : Nat) (h : ℤ),
        compute_backoff p n (some h) = min (h : ℚ) p.max_sleep)
    ∧ (∀ (p : RetryPolicy) (n : Nat),
        compute_backoff p n none
          = min (p.base_sleep * 2 ^ (n - 1)) p.max_sleep)
    ∧ (∀ (p : RetryPolicy) (n : Nat), 1 ≤ n → 0 ≤ p.base_sleep →
        compute_backoff p n none ≤ compute_backoff p (n + 1) none)
    ∧ (∀ (p : RetryPolicy) (n : Nat) (ra : Option ℤ),
        compute_backoff p n ra ≤ p.max_sleep)
    ∧ ([1, 2, 3, 4, 5, 6, 7, 8].map
        (fun n => compute_backoff defaultPolicy n none)
          = [1, 2, 4, 8, 16, 32, 64, 120]) := by
  refine ⟨fun p n h => rfl, fun p n => rfl, ?_, ?_, ?_⟩
  · intro p n hn hb
    show min (p.base_sleep * 2 ^ (n - 1)) p.max_sleep
        ≤ min (p.base_sleep * 2 ^ (n + 1 - 1)) p.max_sleep
    refine min_le_min ?_ le_rfl
    refine mul_le_mul_of_nonneg_left ?_ hb
    exact pow_le_pow_right₀ one_le_two (by omega)
  · intro p n ra
    cases ra with
    | some ra => exact min_le_right _ _
    | none => exact min_le_right _ _
  · simp only [List.map, compute_backoff, defaultPolicy]
    norm_num [min_def]

/-- Witness for compute_backoff_spec: monotonicity instantiated at the
default policy between attempts 2 and 3. -/
theorem compute_backoff_spec_witness :
    ((1 : Nat) ≤ 2 ∧ (0 : ℚ) ≤ (defaultPolicy).base_sleep)
      ∧ compute_backoff defaultPolicy 2 none
          ≤ compute_backoff defaultPolicy 3 none :=
  ⟨⟨by norm_num, by norm_num [defaultPolicy]⟩,
   compute_backoff_spec.2.2.1 defaultPolicy 2 (by norm_num)
     (by norm_num [defaultPolicy])⟩

/-- Either of the two retry-classified failures (rate-limited with some
hint, or transient) as seen through fetch_transfers_with_handling. -/
theorem stepOutcome_fields (t : Int) (policy : RetryPolicy)
    (h : HttpResult) (r : Row)
    (hh : (∃ ra, fetch_transfers_with_handling h = .error (.rateLimit ra))
        ∨ fetch_transfers_with_handling h = .error .transientErr) :
    (stepOutcome t policy h r).attempts = r.attempts + 1
    ∧ (stepOutcome t policy h r).status = .failed
    ∧ (policy.max_attempts ≤ r.attempts + 1 →
        (stepOutcome t policy h r).next_retry_at = none) := by
  rcases hh with ⟨ra, hra⟩ | htr
  · by_cases hm : policy.max_attempts ≤ r.attempts + 1 <;>
      simp [stepOutcome, process_one_permit, procAux, hra, hm, mark_failed]
  · by_cases hm : policy.max_attempts ≤ r.attempts + 1 <;>
      simp [stepOutcome, process_one_permit, procAux, htr, hm, mark_failed]

/-- Iterating a retry-classified failure adds one attempt per step. -/
theorem stepOutcome_iterate_attempts (t : Int) (policy : RetryPolicy)
    (h : HttpResult) (r : Row)
    (hh : (∃ ra, fetch_transfers_with_handling h = .error (.rateLimit ra))
        ∨ fetch_transfers_with_handling h = .error .transientErr) :
    ∀ n : Nat, ((stepOutcome t policy h)^[n] r).attempts = r.attempts + n := by
  intro n
  induction n with
  | zero => simp
  | succ n ih =>
    rw [Function.iterate_succ_apply',
      (stepOutcome_fields t policy h _ hh).1, ih]
    omega

/-- C10: process_one_permit performs exactly one remote fetch: although
written as an unconditional retry loop, every branch returns during the
first iteration, so the result only depends on the first fetch outcome
and every compute_backoff call it makes uses in-process attempt number
1. -/
theorem process_one_permit_single_fetch :
    ∀ (t : Int) (policy : RetryPolicy) (h : HttpResult)
      (rest : List HttpResult) (r : Row),
      ∃ res : ProcResult,
        process_one_permit t policy (h :: rest) r = some res
        ∧ res.fetches = 1
        ∧ (res.backoffCalls = [] ∨ res.backoffCalls = [1])
        ∧ process_one_permit t policy (h :: rest) r
            = process_one_permit t policy [h] r := by
  intro t policy h rest r
  have heq : process_one_permit t policy (h :: rest) r
      = process_one_permit t policy [h] r := rfl
  cases hfe : fetch_transfers_with_handling h with
  | ok payload =>
    exact ⟨⟨mark_done t r, 1, [], some payload⟩,
      by simp [process_one_permit, procAux, hfe], rfl, Or.inl rfl, heq⟩
  | error e =>
    cases e with
    | rateLimit ra =>
      by_cases hm : policy.max_attempts ≤ r.attempts + 1
      · exact ⟨⟨mark_failed t (r.attempts + 1) "RateLimitError" none r,
          1, [], none⟩,
          by simp [process_one_permit, procAux, hfe, hm], rfl, Or.inl rfl, heq⟩
      · exact ⟨⟨mark_failed t (r.attempts + 1) "RateLimitError"
          (some (pyInt (compute_backoff policy 1 ra))) r, 1, [1], none⟩,
          by simp [process_one_permit, procAux, hfe, hm], rfl, Or.inr rfl, heq⟩
    | transientErr =>
      by_cases hm : policy.max_attempts ≤ r.attempts + 1
      · exact ⟨⟨mark_failed t (r.attempts + 1) "TransientAPIError" none r,
          1, [], none⟩,
          by simp [process_one_permit, procAux, hfe, hm], rfl, Or.inl rfl, heq⟩
      · exact ⟨⟨mark_failed t (r.attempts + 1) "TransientAPIError"
          (some (pyInt (compute_backoff policy 1 none))) r, 1, [1], none⟩,
          by simp [process_one_permit, procAux, hfe, hm], rfl, Or.inr rfl, heq⟩
    | hard =>
      exact ⟨⟨mark_failed t (r.attempts + 1) "Unhandled" none r, 1, [], none⟩,
        by simp [process_one_permit, procAux, hfe], rfl, Or.inl rfl, heq⟩

/-- C4: once the recorded attempts count has reached max_attempts, the
next rate-limited or transient outcome is recorded as permanently failed
(status failed, next_retry_at NULL); and starting from a fresh row,
max_attempts consecutive rate-limited/transient outcomes leave the row
permanently failed. -/
theorem attempt_budget_exhaustion :
    (∀ (t : Int) (policy : RetryPolicy) (h : HttpResult)
        (rest : List HttpResult) (r : Row),
      ((∃ ra, fetch_transfers_with_handling h = .error (.rateLimit ra))
        ∨ fetch_transfers_with_handling h = .error .transientErr) →
      policy.max_attempts ≤ r.attempts →
      ∃ res : ProcResult,
        process_one_permit t policy (h :: rest) r = some res
        ∧ res.row.status = .failed ∧ res.row.next_retry_at = none)
    ∧ (∀ (t : Int) (policy : RetryPolicy) (h : HttpResult) (r : Row),
      ((∃ ra, fetch_transfers_with_handling h = .error (.rateLimit ra))
        ∨ fetch_transfers_with_handling h = .error .transientErr) →
      1 ≤ policy.max_attempts → r.attempts = 0 →
      ((stepOutcome t policy h)^[policy.max_attempts] r).status = .failed
      ∧ ((stepOutcome t policy h)^[policy.max_attempts] r).next_retry_at
          = none) := by
  constructor
  · intro t policy h rest r hh hmax
    have hm : policy.max_attempts ≤ r.attempts + 1 := by omega
    rcases hh with ⟨ra, hra⟩ | htr
    · exact ⟨⟨mark_failed t (r.attempts + 1) "RateLimitError" none r,
        1, [], none⟩,
        by simp [process_one_permit, procAux, hra, hm], rfl, rfl⟩
    · exact ⟨⟨mark_failed t (r.attempts + 1) "TransientAPIError" none r,
        1, [], none⟩,
        by simp [process_one_permit, procAux, htr, hm], rfl, rfl⟩
  · intro t policy h r hh hmax hzero
    obtain ⟨m, hm⟩ : ∃ m, policy.max_attempts = m + 1 :=
      ⟨policy.max_attempts - 1, by omega⟩
    have hiter := stepOutcome_iterate_attempts t policy h r hh m
    rw [hm, Function.iterate_succ_apply']
    have hfields := stepOutcome_fields t policy h
      ((stepOutcome t policy h)^[m] r) hh
    refine ⟨hfields.2.1, hfields.2.2 ?_⟩
    rw [hiter, hzero, hm]
    omega

/-- Witness for attempt_budget_exhaustion: three consecutive timeouts
against a fresh row under a max_attempts = 3 policy leave it
permanently failed. -/
theorem attempt_budget_exhaustion_witness :
    (fetch_transfers_with_handling .timeoutExc = .error .transientErr
      ∧ 1 ≤ (3 : Nat) ∧ (seedRow 0).attempts = 0)
    ∧ ((stepOutcome 0 ⟨3, 1, 120, 1/4⟩ .timeoutExc)^[3]
         (seedRow 0)).status = .failed
    ∧ ((stepOutcome 0 ⟨3, 1, 120, 1/4⟩ .timeoutExc)^[3]
         (seedRow 0)).next_retry_at = none :=
  ⟨⟨rfl, by norm_num, rfl⟩,
   attempt_budget_exhaustion.2 0 ⟨3, 1, 120, 1/4⟩ .timeoutExc (seedRow 0)
     (Or.inr rfl) (by norm_num) rfl⟩

/-- Updating the matching rows of a table that contains the key makes
the key look up to the new value. -/
theorem find?_map_update (k : String) (fs : FetchState) :
    ∀ st : List (String × FetchState),
      st.any (fun p => decide (p.1 = k)) →
      (st.map (fun p => if p.1 = k then (k, fs) else p)).find?
          (fun p => decide (p.1 = k)) = some (k, fs) := by
  intro st
  induction st with
  | nil => simp
  | cons p ps ih =>
    intro hany
    by_cases hp : p.1 = k
    · simp [hp]
    · simp only [List.any_cons, hp, decide_False, Bool.false_or] at hany
      rw [List.map_cons, if_neg hp, List.find?_cons]
      simp only [hp, decide_False]
      exact ih hany

/-- mark_state followed by a lookup of the same key returns exactly the
upserted record. -/
theorem lookupState_mark_state (t : Int) (st : List (String × FetchState))
    (k status : String) (aj : Option String) (err : Option String)
    (nra : Option Int) :
    lookupState (mark_state t st k status aj err nra) k
      = some ⟨some t, aj, some status, err.map (fun e => e.take 2000), nra⟩ := by
  unfold mark_state lookupState
  by_cases hmem : st.any (fun p => decide (p.1 = k))
  · simp only [hmem, if_true]
    rw [find?_map_update k _ st hmem]
    rfl
  · have hnone : st.find? (fun p => decide (p.1 = k)) = none := by
      refine List.find?_eq_none.mpr ?_
      intro x hx hxk
      exact hmem (List.any_eq_true.mpr ⟨x, hx, hxk⟩)
    simp [hmem, List.find?_append, hnone]

/-- Evaluation helper: the backoff the backfill worker stores for every
retryable transient failure, under the default policy. -/
theorem pyInt_compute_backoff_default :
    pyInt (compute_backoff defaultPolicy 1 none) = 1 := by
  norm_num [pyInt, compute_backoff, defaultPolicy, min_def]

/-- C3 counterexample: under the default policy two successive transient
failures of a fresh key both store a next_retry_at offset of
base_delay = 1 second — the second one is not the claimed
base_delay * 2^(2-1) = 2 — and in the daily runner a transient failure
(timeout) is recorded as failed with no next_retry_at at all. -/
theorem transient_backoff_claim_fails :
    (stepOutcome 100 defaultPolicy .timeoutExc
        (stepOutcome 100 defaultPolicy .timeoutExc (seedRow 0))).next_retry_at
      = some (100 + 1)
    ∧ (stepOutcome 100 defaultPolicy .timeoutExc
        (stepOutcome 100 defaultPolicy .timeoutExc (seedRow 0))).next_retry_at
      ≠ some (100 + 2)
    ∧ (lookupState (processDailyItem 100 "k" .timeoutErr [] ⟨0, 0, 0⟩).1
        "k").map (fun fs => (fs.last_status, fs.next_retry_at))
      = some (some "failed", none) := by
  have h1 : stepOutcome 100 defaultPolicy .timeoutExc (seedRow 0)
      = mark_failed 100 1 "TransientAPIError"
          (some (pyInt (compute_backoff defaultPolicy 1 none))) (seedRow 0) := by
    simp [stepOutcome, process_one_permit, procAux, seedRow, defaultPolicy,
      fetch_transfers_with_handling]
  have h2 : stepOutcome 100 defaultPolicy .timeoutExc
      (mark_failed 100 1 "TransientAPIError"
        (some (pyInt (compute_backoff defaultPolicy 1 none))) (seedRow 0))
      = mark_failed 100 2 "TransientAPIError"
          (some (pyInt (compute_backoff defaultPolicy 1 none)))
          (mark_failed 100 1 "TransientAPIError"
            (some (pyInt (compute_backoff defaultPolicy 1 none))) (seedRow 0)) := by
    simp [stepOutcome, process_one_permit, procAux, seedRow, defaultPolicy,
      mark_failed, fetch_transfers_with_handling]
  rw [h1, h2]
  refine ⟨?_, ?_, ?_⟩
  · simp [mark_failed, pyInt_compute_backoff_default]
  · simp [mark_failed, pyInt_compute_backoff_default]
  · rw [show (processDailyItem 100 "k" .timeoutErr [] ⟨0, 0, 0⟩).1
        = mark_state 100 [] "k" "failed" none (some "Timeout") none from rfl,
      lookupState_mark_state]
    rfl

/-- C3 amended: in the backfill worker a transient failure with
attempts + 1 still below max_attempts is recorded as retryable, but with
the constant offset int(compute_backoff(policy, 1, None)) — the
in-process attempt counter is always 1, so the stored delay does not
grow across the queue-mediated retries — and in the daily runner every
transient failure (timeout, unclassified network error, or HTTP 5xx) is
recorded as failed with no retry scheduled at all. -/
theorem transient_backoff_amended :
    (∀ (t : Int) (policy : RetryPolicy) (h : HttpResult)
        (rest : List HttpResult) (r : Row),
      fetch_transfers_with_handling h = .error .transientErr →
      r.attempts + 1 < policy.max_attempts →
      ∃ res : ProcResult,
        process_one_permit t policy (h :: rest) r = some res
        ∧ res.row.status = .failed
        ∧ res.row.next_retry_at
            = some (t + pyInt (compute_backoff policy 1 none)))
    ∧ (∀ (t : Int) (k : String) (st : List (String × FetchState))
        (c : DailyCounters) (ev : DailyEvent),
      (ev = .timeoutErr ∨ ev = .otherErr
        ∨ ∃ s ra, ev = .httpError (some s) ra ∧ 500 ≤ s ∧ s ≤ 599) →
      ∃ fs : FetchState,
        lookupState (processDailyItem t k ev st c).1 k = some fs
        ∧ fs.last_status = some "failed" ∧ fs.next_retry_at = none) := by
  constructor
  · intro t policy h rest r htr hlt
    have hm : ¬ policy.max_attempts ≤ r.attempts + 1 := by omega
    exact ⟨⟨mark_failed t (r.attempts + 1) "TransientAPIError"
      (some (pyInt (compute_backoff policy 1 none))) r, 1, [1], none⟩,
      by simp [process_one_permit, procAux, htr, hm], rfl, rfl⟩
  · intro t k st c ev hev
    rcases hev with hto | hoth | ⟨s, ra, h5, hs1, hs2⟩
    · subst hto
      exact ⟨⟨some t, none, some "failed",
        some (String.take "Timeout" 2000), none⟩,
        by simpa [processDailyItem] using
          lookupState_mark_state t st k "failed" none (some "Timeout") none,
        rfl, rfl⟩
    · subst hoth
      exact ⟨⟨some t, none, some "failed",
        some (String.take "Exception" 2000), none⟩,
        by simpa [processDailyItem] using
          lookupState_mark_state t st k "failed" none (some "Exception") none,
        rfl, rfl⟩
    · subst h5
      have h404 : ¬ (some s = some (404 : Int)) := by
        intro h
        injection h with h
        omega
      have h429 : ¬ (some s = some (429 : Int)) := by
        intro h
        injection h with h
        omega
      refine ⟨⟨some t, none, some "failed",
        some (String.take "HTTPError" 2000), none⟩, ?_, rfl, rfl⟩
      have hstep : (processDailyItem t k (.httpError (some s) ra) st c).1
          = mark_state t st k "failed" none (some "HTTPError") none := by
        simp [processDailyItem, h404, h429]
      rw [hstep]
      simpa using
        lookupState_mark_state t st k "failed" none (some "HTTPError") none

/-- Witness for transient_backoff_amended: one timeout against a fresh
row under the default policy stores a one-second retry offset, and an
HTTP 503 in the daily runner is recorded failed with no cooldown. -/
theorem transient_backoff_amended_witness :
    ((fetch_transfers_with_handling .timeoutExc = .error .transientErr
      ∧ (seedRow 5).attempts + 1 < defaultPolicy.max_attempts)
    ∧ ∃ res : ProcResult,
        process_one_permit 0 defaultPolicy [.timeoutExc] (seedRow 5) = some res
        ∧ res.row.status = .failed
        ∧ res.row.next_retry_at
            = some (0 + pyInt (compute_backoff defaultPolicy 1 none)))
    ∧ ∃ fs : FetchState,
        lookupState (processDailyItem 0 "k" (.httpError (some 503) none)
          [] ⟨0, 0, 0⟩).1 "k" = some fs
        ∧ fs.last_status = some "failed" ∧ fs.next_retry_at = none :=
  ⟨⟨⟨rfl, by norm_num [seedRow, defaultPolicy]⟩,
    transient_backoff_amended.1 0 defaultPolicy .timeoutExc [] (seedRow 5)
      rfl (by norm_num [seedRow, defaultPolicy])⟩,
   transient_backoff_amended.2 0 "k" [] ⟨0, 0, 0⟩
     (.httpError (some 503) none)
     (Or.inr (Or.inr ⟨503, none, rfl, by norm_num, by norm_num⟩))⟩

/-- C8: an HTTP 404 fetch outcome is normalized to success with zero
records: fetch_transfers_with_handling turns it into an empty payload,
the backfill worker persists that empty payload and marks the row done
(never failed), and the daily runner persists zero records and records
the success label ok_404_no_transfers (never failed). -/
theorem not_found_normalization :
    (∀ ra : Option Int,
      fetch_transfers_with_handling (.httpExc (some 404) ra) = .ok (none, []))
    ∧ (∀ (t : Int) (policy : RetryPolicy) (ra : Option Int)
        (rest : List HttpResult) (r : Row),
      ∃ res : ProcResult,
        process_one_permit t policy (.httpExc (some 404) ra :: rest) r
          = some res
        ∧ res.row.status = .done
        ∧ res.row.status ≠ .failed
        ∧ res.persisted = some (none, []))
    ∧ (∀ (t : Int) (k : String) (st : List (String × FetchState))
        (c : DailyCounters) (ra : Option Int),
      (processDailyItem t k (.httpError (some 404) ra) st c).2.2 = some []
      ∧ (processDailyItem t k (.httpError (some 404) ra) st c).2.1.okCount
          = c.okCount + 1
      ∧ ∃ fs : FetchState,
          lookupState (processDailyItem t k (.httpError (some 404) ra) st c).1 k
            = some fs
          ∧ fs.last_status = some "ok_404_no_transfers"
          ∧ fs.last_status ≠ some "failed") := by
  refine ⟨fun ra => rfl, ?_, ?_⟩
  · intro t policy ra rest r
    exact ⟨⟨mark_done t r, 1, [], some (none, [])⟩,
      by simp [process_one_permit, procAux, fetch_transfers_with_handling],
      rfl, by simp [mark_done], rfl⟩
  · intro t k st c ra
    refine ⟨rfl, rfl, ⟨some t, none, some "ok_404_no_transfers", none, none⟩,
      ?_, rfl, by simp⟩
    rw [show (processDailyItem t k (.httpError (some 404) ra) st c).1
        = mark_state t st k "ok_404_no_transfers" none none none from rfl,
      lookupState_mark_state]
    rfl

/-- Key membership distributes over table append. -/
theorem hasKey_append (s1 s2 : List (String × Row)) (k : String) :
    hasKey (s1 ++ s2) k = (hasKey s1 k || hasKey s2 k) := by
  simp [hasKey]

/-- Key membership in a freshly seeded block. -/
theorem hasKey_map_seed (t : Int) (l : List String) (k : String) :
    hasKey (l.map (fun k2 => (k2, seedRow t))) k
      = l.any (fun k2 => decide (k2 = k)) := by
  unfold hasKey
  induction l with
  | nil => rfl
  | cons x xs ih => simp only [List.map_cons, List.any_cons, ih]

/-- Characterization of the seed fold: starting from any table and
counter, it appends one seed row per not-yet-present key (keys assumed
distinct, as a SELECT over a primary key yields) and adds their number
to the counter. -/
theorem seed_fold_spec (t : Int) :
    ∀ (ks : List String) (s : List (String × Row)) (c : Nat), ks.Nodup →
      ks.foldl
        (fun acc k =>
          if hasKey acc.1 k then acc
          else (acc.1 ++ [(k, seedRow t)], acc.2 + 1)) (s, c)
      = (s ++ (ks.filter (fun k => !(hasKey s k))).map
            (fun k => (k, seedRow t)),
         c + (ks.filter (fun k => !(hasKey s k))).length) := by
  intro ks
  induction ks with
  | nil => intro s c _; simp
  | cons k ks ih =>
    intro s c hnd
    have hk_not_mem : k ∉ ks := (List.nodup_cons.mp hnd).1
    have hnd2 : ks.Nodup := (List.nodup_cons.mp hnd).2
    rw [List.foldl_cons]
    by_cases hk : hasKey s k
    · rw [if_pos hk, ih s c hnd2]
      simp [List.filter_cons, hk]
    · rw [if_neg hk, ih (s ++ [(k, seedRow t)]) (c + 1) hnd2]
      have hfil : ks.filter (fun k2 => !(hasKey (s ++ [(k, seedRow t)]) k2))
          = ks.filter (fun k2 => !(hasKey s k2)) := by
        refine List.filter_congr ?_
        intro x hx
        have hxk : ¬ k = x := fun h => hk_not_mem (by rw [h]; exact hx)
        simp [hasKey_append, hasKey, hxk]
      rw [hfil]
      have hkb : (!(hasKey s k)) = true := by simp [hk]
      simp [List.filter_cons, hkb, List.append_assoc]
      omega

/-- C6: seed_queue inserts exactly one fresh pending row (attempts 0,
all optional fields NULL) per key not already present, appended after
the untouched existing rows, and returns the number inserted; running it
again over the same key universe inserts nothing and leaves the table
unchanged. -/
theorem seed_queue_idempotent :
    (∀ (t : Int) (keys : List String) (limit : Option Nat)
        (rows : List (String × Row)), keys.Nodup →
      seed_queue t keys limit rows
        = (rows ++ ((match limit with
              | some n => keys.take n
              | none => keys).filter
                (fun k => !(hasKey rows k))).map (fun k => (k, seedRow t)),
           ((match limit with
              | some n => keys.take n
              | none => keys).filter
                (fun k => !(hasKey rows k))).length))
    ∧ (∀ (t1 t2 : Int) (keys : List String) (limit : Option Nat)
        (rows : List (String × Row)), keys.Nodup →
      seed_queue t2 keys limit (seed_queue t1 keys limit rows).1
        = ((seed_queue t1 keys limit rows).1, 0)) := by
  have hmain : ∀ (t : Int) (keys : List String) (limit : Option Nat)
      (rows : List (String × Row)), keys.Nodup →
      seed_queue t keys limit rows
        = (rows ++ ((match limit with
              | some n => keys.take n
              | none => keys).filter
                (fun k => !(hasKey rows k))).map (fun k => (k, seedRow t)),
           ((match limit with
              | some n => keys.take n
              | none => keys).filter
                (fun k => !(hasKey rows k))).length) := by
    intro t keys limit rows hnd
    cases limit with
    | none =>
      have h := seed_fold_spec t keys rows 0 hnd
      unfold seed_queue
      simpa using h
    | some n =>
      have hndl : (keys.take n).Nodup := (List.take_sublist n keys).nodup hnd
      have h := seed_fold_spec t (keys.take n) rows 0 hndl
      unfold seed_queue
      simpa using h
  refine ⟨hmain, ?_⟩
  intro t1 t2 keys limit rows hnd
  have h1 := hmain t1 keys limit rows hnd
  have h2 := hmain t2 keys limit (seed_queue t1 keys limit rows).1 hnd
  rw [h2]
  have hfil : (match limit with
      | some n => keys.take n
      | none => keys).filter
        (fun k => !(hasKey (seed_queue t1 keys limit rows).1 k)) = [] := by
    rw [List.filter_eq_nil_iff]
    intro k hk
    suffices hmem : hasKey (seed_queue t1 keys limit rows).1 k = true by
      simp [hmem]
    have hs1 : (seed_queue t1 keys limit rows).1
        = rows ++ ((match limit with
            | some n => keys.take n
            | none => keys).filter
              (fun k2 => !(hasKey rows k2))).map (fun k2 => (k2, seedRow t1)) := by
      rw [h1]
    rw [hs1, hasKey_append]
    by_cases hrk : hasKey rows k
    · simp [hrk]
    · have hkfil : k ∈ (match limit with
          | some n => keys.take n
          | none => keys).filter (fun k2 => !(hasKey rows k2)) :=
        List.mem_filter.mpr ⟨hk, by simp [hrk]⟩
      rw [hasKey_map_seed]
      have : ((match limit with
          | some n => keys.take n
          | none => keys).filter (fun k2 => !(hasKey rows k2))).any
            (fun k2 => decide (k2 = k)) = true :=
        List.any_eq_true.mpr ⟨k, hkfil, by simp⟩
      simp [this]
  rw [hfil]
  simp

/-- Witness for seed_queue_idempotent: seeding twice from a two-key
universe into an empty table. -/
theorem seed_queue_idempotent_witness :
    (["a", "b"] : List String).Nodup
    ∧ seed_queue 1 ["a", "b"] none (seed_queue 0 ["a", "b"] none []).1
        = ((seed_queue 0 ["a", "b"] none []).1, 0) :=
  ⟨by decide,
   seed_queue_idempotent.2 0 1 ["a", "b"] none [] (by decide)⟩

/-- Propositional reading of the ORDER BY comparison. -/
theorem ltKey_iff (a b : Int × Int × Int) :
    ltKey a b = true
      ↔ (a.1 < b.1
         ∨ (a.1 = b.1
            ∧ (a.2.1 < b.2.1 ∨ (a.2.1 = b.2.1 ∧ a.2.2 < b.2.2)))) := by
  simp [ltKey]

/-- The ORDER BY comparison is irreflexive. -/
theorem ltKey_irrefl (a : Int × Int × Int) : ltKey a a = false := by
  simp [ltKey]

/-- The ORDER BY comparison is transitive. -/
theorem ltKey_trans {a b c : Int × Int × Int} (h1 : ltKey a b = true)
    (h2 : ltKey b c = true) : ltKey a c = true := by
  rw [ltKey_iff] at h1 h2 ⊢
  omega

/-- The ORDER BY comparison is asymmetric. -/
theorem ltKey_asymm {a b : Int × Int × Int} (h : ltKey a b = true) :
    ltKey b a = false := by
  cases hba : ltKey b a with
  | false => rfl
  | true =>
    exfalso
    rw [ltKey_iff] at h hba
    omega

/-- Invariant of the LIMIT 1 fold: starting from a candidate, it returns
an element of the candidate-plus-list pool that no list element strictly
precedes. -/
theorem foldl_min_spec (f : α → Int × Int × Int) :
    ∀ (l : List α) (b : α),
      ∃ m, l.foldl
          (fun acc x =>
            match acc with
            | none => some x
            | some c => if ltKey (f x) (f c) then some x else some c)
          (some b) = some m
        ∧ (m = b ∨ m ∈ l)
        ∧ (ltKey (f m) (f b) = true ∨ m = b)
        ∧ ∀ x ∈ l, ltKey (f x) (f m) = false := by
  intro l
  induction l with
  | nil =>
    intro b
    exact ⟨b, rfl, Or.inl rfl, Or.inr rfl, by simp⟩
  | cons x l ih =>
    intro b
    by_cases hxb : ltKey (f x) (f b) = true
    · obtain ⟨m, hm, hmem, hmin, hall⟩ := ih x
      refine ⟨m, ?_, ?_, ?_, ?_⟩
      · rw [List.foldl_cons]
        simpa [hxb] using hm
      · rcases hmem with h | h
        · exact Or.inr (h ▸ List.mem_cons_self x l)
        · exact Or.inr (List.mem_cons_of_mem x h)
      · rcases hmin with h | h
        · exact Or.inl (ltKey_trans h hxb)
        · exact Or.inl (h ▸ hxb)
      · intro y hy
        rcases List.mem_cons.mp hy with h | h
        · rcases hmin with h2 | h2
          · subst h
            exact ltKey_asymm h2
          · subst h; subst h2
            exact ltKey_irrefl _
        · exact hall y h
    · obtain ⟨m, hm, hmem, hmin, hall⟩ := ih b
      refine ⟨m, ?_, ?_, hmin, ?_⟩
      · rw [List.foldl_cons]
        simpa [hxb] using hm
      · rcases hmem with h | h
        · exact Or.inl h
        · exact Or.inr (List.mem_cons_of_mem x h)
      · intro y hy
        rcases List.mem_cons.mp hy with h | h
        · subst h
          rcases hmin with h2 | h2
          · cases hym : ltKey (f y) (f m) with
            | false => rfl
            | true => exact absurd (ltKey_trans hym h2) (by simp [hxb])
          · subst h2
            cases hym : ltKey (f y) (f m) with
            | false => rfl
            | true => exact absurd hym (by simp [hxb])
        · exact hall y h

/-- selectMin returns none exactly on the empty list, and otherwise an
element that no other element strictly precedes in ORDER BY order. -/
theorem selectMin_spec (f : α → Int × Int × Int) (l : List α) :
    (selectMin f l = none ↔ l = [])
    ∧ ∀ m, selectMin f l = some m →
        m ∈ l ∧ ∀ x ∈ l, ltKey (f x) (f m) = false := by
  cases l with
  | nil => exact ⟨by simp [selectMin], by simp [selectMin]⟩
  | cons b l =>
    obtain ⟨m, hm, hmem, hmin, hall⟩ := foldl_min_spec f l b
    have hsel : selectMin f (b :: l) = some m := by
      simpa [selectMin] using hm
    refine ⟨by simp [hsel], ?_⟩
    intro m2 hm2
    rw [hsel] at hm2
    injection hm2 with hm2
    subst hm2
    constructor
    · rcases hmem with h | h
      · exact h ▸ List.mem_cons_self b l
      · exact List.mem_cons_of_mem b h
    · intro x hx
      rcases List.mem_cons.mp hx with h | h
      · subst h
        rcases hmin with h2 | h2
        · exact ltKey_asymm h2
        · subst h2
          exact ltKey_irrefl _
      · exact hall x h

/-- In a table with distinct keys, a member row is what its key looks
up to. -/
theorem lookupRow_mem {rows : List (String × Row)} {k : String} {r : Row}
    (hnd : keysNodup rows) (hmem : (k, r) ∈ rows) :
    lookupRow k rows = some r := by
  induction rows with
  | nil => cases hmem
  | cons p ps ih =>
    have hnd2 : keysNodup ps := (List.nodup_cons.mp hnd).2
    rcases List.mem_cons.mp hmem with h | h
    · rw [← h]
      simp [lookupRow]
    · have hk : p.1 ≠ k := by
        intro hpk
        apply (List.nodup_cons.mp hnd).1
        show p.1 ∈ ps.map (fun x => x.1)
        rw [hpk]
        exact List.mem_map.mpr ⟨(k, r), h, rfl⟩
      simp only [lookupRow, List.find?_cons, hk, decide_False]
      exact ih hnd2 h

/-- In a table with distinct keys, the affected-row count of the
conditional UPDATE is 1 when the key's row is eligible and 0 otherwise. -/
theorem countP_hit_lookup (t stale : Int) (k : String) :
    ∀ rows : List (String × Row), keysNodup rows →
      rows.countP (fun kr => hit t stale k kr)
        = (match lookupRow k rows with
           | some r => if eligible t stale r then 1 else 0
           | none => 0) := by
  intro rows
  induction rows with
  | nil => simp [lookupRow]
  | cons p ps ih =>
    intro hnd
    have hnd2 : keysNodup ps := (List.nodup_cons.mp hnd).2
    by_cases hp : p.1 = k
    · have hzero : ps.countP (fun kr => hit t stale k kr) = 0 := by
        rw [List.countP_eq_zero]
        intro kr hkr
        have : kr.1 ≠ k := by
          intro hk1
          apply (List.nodup_cons.mp hnd).1
          show p.1 ∈ ps.map (fun x => x.1)
          rw [hp, ← hk1]
          exact List.mem_map.mpr ⟨kr, hkr, rfl⟩
        simp [hit, this]
      rw [List.countP_cons, hzero]
      simp only [lookupRow, List.find?_cons, hp, decide_True]
      simp [hit, hp]
    · rw [List.countP_cons]
      have : hit t stale k p = false := by simp [hit, hp]
      rw [this]
      simp only [lookupRow, List.find?_cons, hp, decide_False]
      rw [ih hnd2]
      simp [lookupRow]

/-- C2 counterexample: with lease_timeout 10, an in_progress row whose
lease is exactly 10 seconds old at claim time (locked_at 0, now 10) is
claimed by claim_one, although its lease is not strictly older than
lease_timeout, so the claimed eligibility characterization (lease
strictly older than lease_timeout) is false on the code. -/
theorem claim_eligibility_boundary :
    (claim_one 10 "w" 10
        [("k", ⟨.in_progress, 0, none, some 0, some "w0", none, 5⟩)]).1
      = some "k"
    ∧ specClaimEligible 10 10
        ⟨.in_progress, 0, none, some 0, some "w0", none, 5⟩ = false := by
  constructor
  · decide
  · decide

/-- C2 amended: claim_one returns no key exactly when no row is
eligible; a returned key names an eligible row that no eligible row
strictly precedes in the order (status tier pending < failed <
in_progress, then next_retry_at treating NULL as 0, then updated_at);
and a row is eligible iff it is pending, or failed with an elapsed
non-NULL next_retry_at, or in_progress with no lock time or a lease at
least lease_timeout old (l ≤ t - lease_timeout, not strictly older). In
particular an in_progress row with a lease strictly younger than
lease_timeout is never claimable and a failed row with NULL
next_retry_at is never claimable. -/
theorem claim_one_correct :
    (∀ (t : Int) (o : String) (tmo : Int) (rows : List (String × Row)),
      keysNodup rows →
      ((claim_one t o tmo rows).1 = none
        ↔ rows.all (fun kr => !(eligible t (t - tmo) kr.2)) = true))
    ∧ (∀ (t : Int) (o : String) (tmo : Int) (rows : List (String × Row))
        (k : String),
      keysNodup rows →
      (claim_one t o tmo rows).1 = some k →
      ∃ r : Row, lookupRow k rows = some r ∧ eligible t (t - tmo) r = true
        ∧ rows.all (fun kr => !(eligible t (t - tmo) kr.2)
            || !(ltKey (orderKey kr.2) (orderKey r))) = true)
    ∧ (∀ (t tmo : Int) (r : Row),
      eligible t (t - tmo) r = true
        ↔ (r.status = .pending
           ∨ (r.status = .failed ∧ ∃ n, r.next_retry_at = some n ∧ n ≤ t)
           ∨ (r.status = .in_progress
              ∧ (r.locked_at = none
                 ∨ ∃ l, r.locked_at = some l ∧ l ≤ t - tmo))))
    ∧ (∀ (t tmo : Int) (r : Row) (l : Int),
      (r.status = .in_progress → r.locked_at = some l → t - tmo < l →
        eligible t (t - tmo) r = false)
      ∧ (r.status = .failed → r.next_retry_at = none →
        eligible t (t - tmo) r = false)) := by
  have helig : ∀ (t tmo : Int) (r : Row),
      eligible t (t - tmo) r = true
        ↔ (r.status = .pending
           ∨ (r.status = .failed ∧ ∃ n, r.next_retry_at = some n ∧ n ≤ t)
           ∨ (r.status = .in_progress
              ∧ (r.locked_at = none
                 ∨ ∃ l, r.locked_at = some l ∧ l ≤ t - tmo))) := by
    intro t tmo r
    cases hs : r.status <;>
      cases hn : r.next_retry_at <;>
        cases hl : r.locked_at <;>
          simp [eligible, hs, hn, hl]
  refine ⟨?_, ?_, helig, ?_⟩
  · intro t o tmo rows hnd
    constructor
    · intro hres
      by_contra hall
      obtain ⟨kr, hmem, helig2⟩ :
          ∃ kr ∈ rows, eligible t (t - tmo) kr.2 = true := by
        by_contra hno
        push_neg at hno
        apply hall
        rw [List.all_eq_true]
        intro kr hkr2
        cases h2 : eligible t (t - tmo) kr.2 with
        | false => rfl
        | true => exact absurd h2 (hno kr hkr2)
      have hmemf : kr ∈ rows.filter (fun kr => eligible t (t - tmo) kr.2) :=
        List.mem_filter.mpr ⟨hmem, helig2⟩
      cases hsel : selectMin (fun kr => orderKey kr.2)
          (rows.filter (fun kr => eligible t (t - tmo) kr.2)) with
      | none =>
        have := (selectMin_spec (fun kr => orderKey kr.2)
          (rows.filter (fun kr => eligible t (t - tmo) kr.2))).1.mp hsel
        rw [this] at hmemf
        cases hmemf
      | some m =>
        have hm := ((selectMin_spec (fun kr => orderKey kr.2)
          (rows.filter (fun kr => eligible t (t - tmo) kr.2))).2 m hsel).1
        have hmrows := (List.mem_filter.mp hm).1
        have hmelig : eligible t (t - tmo) m.2 = true :=
          (List.mem_filter.mp hm).2
        have hlook : lookupRow m.1 rows = some m.2 :=
          lookupRow_mem hnd (by rw [Prod.mk.eta]; exact hmrows)
        have hcount : rows.countP (fun kr => hit t (t - tmo) m.1 kr) = 1 := by
          rw [countP_hit_lookup t (t - tmo) m.1 rows hnd, hlook]
          simp [hmelig]
        have : (claim_one t o tmo rows).1 = some m.1 := by
          simp [claim_one, claim_one_racy, selectOne, hsel, condUpdate,
            hcount]
        rw [hres] at this
        cases this
    · intro hall
      have hfil : rows.filter (fun kr => eligible t (t - tmo) kr.2) = [] := by
        rw [List.filter_eq_nil_iff]
        intro kr hkr
        have := List.all_eq_true.mp hall kr hkr
        simp at this
        simp [this]
      simp [claim_one, claim_one_racy, selectOne, hfil, selectMin]
  · intro t o tmo rows k hnd hres
    cases hsel : selectMin (fun kr => orderKey kr.2)
        (rows.filter (fun kr => eligible t (t - tmo) kr.2)) with
    | none =>
      exfalso
      rw [show (claim_one t o tmo rows).1 = none by
        simp [claim_one, claim_one_racy, selectOne, hsel]] at hres
      cases hres
    | some m =>
      have hspec := (selectMin_spec (fun kr => orderKey kr.2)
        (rows.filter (fun kr => eligible t (t - tmo) kr.2))).2 m hsel
      have hmrows := (List.mem_filter.mp hspec.1).1
      have hmelig : eligible t (t - tmo) m.2 = true :=
        (List.mem_filter.mp hspec.1).2
      have hlook : lookupRow m.1 rows = some m.2 :=
        lookupRow_mem hnd (by rw [Prod.mk.eta]; exact hmrows)
      have hcount : rows.countP (fun kr => hit t (t - tmo) m.1 kr) = 1 := by
        rw [countP_hit_lookup t (t - tmo) m.1 rows hnd, hlook]
        simp [hmelig]
      have hres2 : (claim_one t o tmo rows).1 = some m.1 := by
        simp [claim_one, claim_one_racy, selectOne, hsel, condUpdate,
          hcount]
      rw [hres2] at hres
      injection hres with hres
      subst hres
      refine ⟨m.2, hlook, hmelig, ?_⟩
      rw [List.all_eq_true]
      intro kr hkr
      by_cases he : eligible t (t - tmo) kr.2 = true
      · have : kr ∈ rows.filter (fun kr => eligible t (t - tmo) kr.2) :=
          List.mem_filter.mpr ⟨hkr, he⟩
        have := hspec.2 kr this
        simp [this]
      · simp [he]
  · intro t tmo r l
    constructor
    · intro hs hl hfresh
      cases he : eligible t (t - tmo) r with
      | false => rfl
      | true =>
        rcases (helig t tmo r).mp he with h | h | h
        · rw [hs] at h; cases h
        · rw [hs] at h; cases h.1
        · rcases h.2 with h2 | ⟨l2, hl2, hle⟩
          · rw [hl] at h2; cases h2
          · rw [hl] at hl2
            injection hl2 with hl2
            omega
    · intro hs hn
      cases he : eligible t (t - tmo) r with
      | false => rfl
      | true =>
        rcases (helig t tmo r).mp he with h | h | h
        · rw [hs] at h; cases h
        · rcases h.2 with ⟨n, hn2, _⟩
          rw [hn] at hn2; cases hn2
        · rw [hs] at h; cases h.1

/-- Witness for claim_one_correct: a singleton queue holding one done
row yields no claim. -/
theorem claim_one_correct_witness :
    keysNodup [("k", (⟨.done, 1, none, none, none, none, 3⟩ : Row))]
    ∧ ((claim_one 10 "w" 10
          [("k", (⟨.done, 1, none, none, none, none, 3⟩ : Row))]).1 = none
        ↔ [("k", (⟨.done, 1, none, none, none, none, 3⟩ : Row))].all
            (fun kr => !(eligible 10 (10 - 10) kr.2)) = true) :=
  ⟨by simp [keysNodup],
   claim_one_correct.1 10 "w" 10
     [("k", (⟨.done, 1, none, none, none, none, 3⟩ : Row))]
     (by simp [keysNodup])⟩

/-- The conditional UPDATE leaves the key column unchanged. -/
theorem condUpdate_keys (t stale : Int) (owner k : String)
    (rows : List (String × Row)) :
    ((condUpdate t stale owner k rows).1).map (fun kr => kr.1)
      = rows.map (fun kr => kr.1) := by
  simp only [condUpdate]
  induction rows with
  | nil => rfl
  | cons p ps ih =>
    by_cases hp : hit t stale k p = true <;> simp [hp, ih]

/-- Looking up the targeted key after the conditional UPDATE: its row is
rewritten to the claimed row exactly when it was eligible. -/
theorem lookupRow_condUpdate (t stale : Int) (owner k : String) :
    ∀ rows : List (String × Row),
      lookupRow k (condUpdate t stale owner k rows).1
        = (lookupRow k rows).map
            (fun r => if eligible t stale r then claimRow t owner r else r) := by
  intro rows
  induction rows with
  | nil => rfl
  | cons p ps ih =>
    by_cases hp : p.1 = k
    · by_cases he : eligible t stale p.2 = true
      · simp [condUpdate, lookupRow, List.find?_cons, hit, hp, he]
      · simp [condUpdate, lookupRow, List.find?_cons, hit, hp, he]
    · have hhit : hit t stale k p = false := by simp [hit, hp]
      have hlhs : lookupRow k (condUpdate t stale owner k (p :: ps)).1
          = lookupRow k (condUpdate t stale owner k ps).1 := by
        simp [condUpdate, lookupRow, List.find?_cons, hhit, hp]
      have hrhs : lookupRow k (p :: ps) = lookupRow k ps := by
        simp [lookupRow, List.find?_cons, hp]
      rw [hlhs, hrhs, ih]

/-- C1: claiming is mutually exclusive. A claimant whose conditional
UPDATE affects zero rows reports no claim (second conjunct), and when
two claimants race — each doing its SELECT on an arbitrary snapshot and
its UPDATE atomically, in either order — the second UPDATE cannot win a
key the first one won while the first claimant's fresh lease (taken at
t1, still younger than the second claimant's staleness horizon
t2 - lock_timeout2) is in place. -/
theorem no_double_claim :
    (∀ (s0 sel1 sel2 : List (String × Row)) (t1 t2 tmo1 tmo2 : Int)
        (o1 o2 k : String),
      keysNodup s0 →
      t2 - tmo2 < t1 →
      (claim_one_racy sel1 t1 o1 tmo1 s0).1 = some k →
      (claim_one_racy sel2 t2 o2 tmo2
          (claim_one_racy sel1 t1 o1 tmo1 s0).2).1 ≠ some k)
    ∧ (∀ (sel s : List (String × Row)) (t tmo : Int) (o k : String),
      (claim_one_racy sel t o tmo s).1 = some k →
      (condUpdate t (t - tmo) o k s).2 = 1) := by
  have hwin : ∀ (sel s : List (String × Row)) (t tmo : Int) (o k : String),
      (claim_one_racy sel t o tmo s).1 = some k →
      (condUpdate t (t - tmo) o k s).2 = 1
        ∧ (claim_one_racy sel t o tmo s).2 = (condUpdate t (t - tmo) o k s).1 := by
    intro sel s t tmo o k hres
    cases hsel : selectOne t (t - tmo) sel with
    | none => simp [claim_one_racy, hsel] at hres
    | some k0 =>
      by_cases hc : (condUpdate t (t - tmo) o k0 s).2 = 1
      · have hk : k0 = k := by
          simp [claim_one_racy, hsel, hc] at hres
          exact hres
        subst hk
        exact ⟨hc, by simp [claim_one_racy, hsel, hc]⟩
      · simp [claim_one_racy, hsel, hc] at hres
  constructor
  · intro s0 sel1 sel2 t1 t2 tmo1 tmo2 o1 o2 k hnd hfresh h1 h2
    obtain ⟨hc1, hs1⟩ := hwin sel1 s0 t1 tmo1 o1 k h1
    obtain ⟨hc2, _⟩ := hwin sel2 (claim_one_racy sel1 t1 o1 tmo1 s0).2
      t2 tmo2 o2 k h2
    rw [hs1] at hc2
    have hc1b : s0.countP (fun kr => hit t1 (t1 - tmo1) k kr) = 1 := hc1
    have hc2b : ((condUpdate t1 (t1 - tmo1) o1 k s0).1).countP
        (fun kr => hit t2 (t2 - tmo2) k kr) = 1 := hc2
    obtain ⟨r, hlook, helig⟩ :
        ∃ r, lookupRow k s0 = some r ∧ eligible t1 (t1 - tmo1) r = true := by
      have := countP_hit_lookup t1 (t1 - tmo1) k s0 hnd
      rw [hc1b] at this
      cases hl : lookupRow k s0 with
      | none => rw [hl] at this; simp at this
      | some r =>
        rw [hl] at this
        by_cases he : eligible t1 (t1 - tmo1) r = true
        · exact ⟨r, rfl, he⟩
        · simp [he] at this
    have hnd1 : keysNodup (condUpdate t1 (t1 - tmo1) o1 k s0).1 := by
      unfold keysNodup
      rw [condUpdate_keys]
      exact hnd
    have hlook1 : lookupRow k (condUpdate t1 (t1 - tmo1) o1 k s0).1
        = some (claimRow t1 o1 r) := by
      rw [lookupRow_condUpdate, hlook]
      simp [helig]
    have hnotelig : eligible t2 (t2 - tmo2) (claimRow t1 o1 r) = false := by
      simp only [eligible, claimRow]
      simp
      omega
    have := countP_hit_lookup t2 (t2 - tmo2) k
      (condUpdate t1 (t1 - tmo1) o1 k s0).1 hnd1
    rw [hc2b, hlook1] at this
    simp [hnotelig] at this
  · intro sel s t tmo o k hres
    exact (hwin sel s t tmo o k hres).1

/-- Witness for no_double_claim: two claimants racing for a singleton
pending queue at the same instant; the first wins, the second must not. -/
theorem no_double_claim_witness :
    (keysNodup [("k", seedRow 0)] ∧ (10 : Int) - 5 < 10
      ∧ (claim_one_racy [("k", seedRow 0)] 10 "a" 5 [("k", seedRow 0)]).1
          = some "k")
    ∧ (claim_one_racy [("k", seedRow 0)] 10 "b" 5
          (claim_one_racy [("k", seedRow 0)] 10 "a" 5 [("k", seedRow 0)]).2).1
        ≠ some "k" :=
  ⟨⟨by simp [keysNodup], by norm_num, by decide⟩,
   no_double_claim.1 [("k", seedRow 0)] [("k", seedRow 0)] [("k", seedRow 0)]
     10 10 5 5 "a" "b" "k" (by simp [keysNodup]) (by norm_num) (by decide)⟩

/-- C9: the daily entry point parses --max-rate-limited but never passes
it to run_daily, which therefore always uses its own default ceiling of
50. With the flag set to 0, a universe of one stale key whose fetch is
rate-limited (HTTP 429): the full selected list is processed and one
rate-limited outcome is counted — which exceeds the requested ceiling
0 — yet the run exits normally (no SystemExit(2)), because 1 does not
exceed the hard-wired default 50. -/
theorem rate_limit_ceiling_not_plumbed :
    (mainDaily 0 (fun _ => []) ⟨300, 7, 30, 0⟩ [] ["k"] []
        (fun _ => .httpError (some 429) none)).processed = ["k"]
    ∧ (mainDaily 0 (fun _ => []) ⟨300, 7, 30, 0⟩ [] ["k"] []
        (fun _ => .httpError (some 429) none)).counters.rate_limited = 1
    ∧ (⟨300, 7, 30, 0⟩ : DailyArgs).max_rate_limited = 0
    ∧ (mainDaily 0 (fun _ => []) ⟨300, 7, 30, 0⟩ [] ["k"] []
        (fun _ => .httpError (some 429) none)).exitCode = none := by
  refine ⟨?_, ?_, rfl, ?_⟩ <;> decide

/-- dedupF splits over append, threading the seen set. -/
theorem dedupF_append (ys : List String) :
    ∀ (xs seen : List String),
      dedupF seen (xs ++ ys) = dedupF seen xs ++ dedupF (pushSeen seen xs) ys := by
  intro xs
  induction xs with
  | nil => intro seen; simp [dedupF, pushSeen]
  | cons k rest ih =>
    intro seen
    by_cases hk : k ∈ seen <;>
      simp [dedupF, pushSeen, hk, ih]

/-- Membership in dedupF: the values of the input not already seen. -/
theorem mem_dedupF :
    ∀ (L seen : List String) (x : String),
      x ∈ dedupF seen L ↔ (x ∉ seen ∧ x ∈ L) := by
  intro L
  induction L with
  | nil => intro seen x; simp [dedupF]
  | cons k rest ih =>
    intro seen x
    by_cases hk : seen.contains k = true
    · have hkmem : k ∈ seen := by simpa using hk
      rw [dedupF, if_pos hk, ih]
      constructor
      · rintro ⟨hns, hr⟩
        exact ⟨hns, List.mem_cons_of_mem _ hr⟩
      · rintro ⟨hns, hkr⟩
        rcases List.mem_cons.mp hkr with heq | hr
        · exact absurd (by rw [heq]; exact hkmem) hns
        · exact ⟨hns, hr⟩
    · have hknmem : k ∉ seen := by simpa using hk
      rw [dedupF, if_neg hk]
      constructor
      · intro hx
        rcases List.mem_cons.mp hx with heq | hx2
        · subst heq
          exact ⟨hknmem, List.mem_cons_self _ _⟩
        · have h2 := (ih (k :: seen) x).mp hx2
          exact ⟨fun hs => h2.1 (List.mem_cons_of_mem _ hs),
            List.mem_cons_of_mem _ h2.2⟩
      · rintro ⟨hns, hkr⟩
        rcases List.mem_cons.mp hkr with heq | hr
        · subst heq
          exact List.mem_cons_self _ _
        · by_cases hxk : x = k
          · subst hxk
            exact List.mem_cons_self _ _
          · refine List.mem_cons_of_mem _ ((ih (k :: seen) x).mpr ⟨?_, hr⟩)
            intro hx
            rcases List.mem_cons.mp hx with h | h
            · exact hxk h
            · exact hns h

/-- The output loop of pick_today_permits computes the limit-truncated
first-occurrence deduplication, as long as the limit is not already
exhausted on entry. -/
theorem combineLoop_eq_take (limit : Nat) :
    ∀ (L out seen : List String), out.length < limit →
      combineLoop limit out seen L
        = out ++ (dedupF seen L).take (limit - out.length) := by
  intro L
  induction L with
  | nil => intro out seen _; simp [combineLoop, dedupF]
  | cons k rest ih =>
    intro out seen hlen
    by_cases hk : seen.contains k = true
    · have hnf : ¬ limit ≤ out.length := by omega
      simp only [combineLoop, hk, if_true, if_neg hnf]
      rw [ih out seen hlen, dedupF, if_pos hk]
    · simp only [combineLoop, hk, if_false]
      rw [dedupF, if_neg hk]
      by_cases hfull : limit ≤ (out ++ [k]).length
      · rw [if_pos hfull]
        have hlim : limit - out.length = 1 := by
          simp only [List.length_append, List.length_cons,
            List.length_nil] at hfull
          omega
        rw [hlim]
        simp
      · rw [if_neg hfull]
        have hlt : (out ++ [k]).length < limit := by omega
        rw [ih (out ++ [k]) (k :: seen) hlt]
        obtain ⟨m, hm⟩ : ∃ m, limit - out.length = m + 1 :=
          ⟨limit - out.length - 1, by omega⟩
        have hm2 : limit - (out ++ [k]).length = m := by
          simp only [List.length_append, List.length_cons, List.length_nil]
          omega
        rw [hm, hm2, List.take_succ_cons, List.append_assoc]
        rfl

/-- Inserting into a sorted list permutes consing. -/
theorem insertBy_perm (le : α → α → Bool) (x : α) :
    ∀ l : List α, (insertBy le x l).Perm (x :: l) := by
  intro l
  induction l with
  | nil => simp [insertBy]
  | cons y ys ih =>
    by_cases h : le x y = true
    · rw [insertBy, if_pos h]
    · rw [insertBy, if_neg h]
      exact (ih.cons y).trans (List.Perm.swap x y ys)

/-- Insertion sort permutes its input. -/
theorem sortBy_perm (le : α → α → Bool) :
    ∀ l : List α, (sortBy le l).Perm l := by
  intro l
  induction l with
  | nil => simp [sortBy]
  | cons x xs ih =>
    exact (insertBy_perm le x (sortBy le xs)).trans (ih.cons x)

/-- Truncating the stale list to the limit before combining does not
change the limit-truncated deduplicated output, provided the stale list
is duplicate-free. -/
theorem dedup_take_truncate (A B : List String) (limit : Nat)
    (hB : B.Nodup) :
    (dedupF [] (A ++ B.take limit)).take limit
      = (dedupF [] (A ++ B)).take limit := by
  by_cases hBl : B.length ≤ limit
  · rw [List.take_of_length_le hBl]
  · push_neg at hBl
    have hBtr_len : (B.take limit).length = limit := by
      rw [List.length_take]
      omega
    have hBtrnd : (B.take limit).Nodup := (List.take_sublist _ _).nodup hB
    have hsub : B.take limit ⊆ dedupF [] (A ++ B.take limit) := by
      intro x hx
      exact (mem_dedupF _ [] x).mpr
        ⟨by simp, List.mem_append.mpr (Or.inr hx)⟩
    have hlen : limit ≤ (dedupF [] (A ++ B.take limit)).length := by
      have := (hBtrnd.subperm hsub).length_le
      omega
    have hsplit : dedupF [] (A ++ B)
        = dedupF [] (A ++ B.take limit)
          ++ dedupF (pushSeen [] (A ++ B.take limit)) (B.drop limit) := by
      conv_lhs => rw [← List.take_append_drop limit B]
      rw [← List.append_assoc, dedupF_append]
    rw [hsplit, List.take_append_of_le_length hlen]

/-- C7 counterexample: with limit = 0 and one recently changed key, the
selector still returns that key — the output length exceeds the limit,
because the break is only checked after an append. -/
theorem pick_today_permits_limit_zero :
    pick_today_permits 0 (fun _ => ['a']) 0 0 0
        [⟨"x", ['b']⟩] [] [] = ["x"]
    ∧ ¬ (pick_today_permits 0 (fun _ => ['a']) 0 0 0
        [⟨"x", ['b']⟩] [] []).length ≤ 0 := by
  constructor <;> decide

/-- C7 amended: for every positive limit (and a duplicate-free key
universe, as permit_current's primary key guarantees), the daily
selector output equals the recently-changed keys A followed by the full
stale list B (eligible keys ordered least-recently-checked then by key),
deduplicated keeping first occurrences and truncated to the limit; in
particular its length is at most the limit. For limit = 0 the code can
return one extra key (see the counterexample). -/
theorem pick_today_permits_spec :
    ∀ (t : Int) (e2d : Int → List Char) (cd sd : Int) (limit : Nat)
      (ownership : List OwnershipRow) (ku : List String)
      (st : List (String × FetchState)),
      1 ≤ limit → ku.Nodup →
      pick_today_permits t e2d cd sd limit ownership ku st
        = selectorSpec t e2d cd sd limit ownership ku st
      ∧ (pick_today_permits t e2d cd sd limit ownership ku st).length
          ≤ limit := by
  intro t e2d cd sd limit ownership ku st hlim hnd
  have hBnd : (staleSorted (t - sd * 86400) t ku st).Nodup :=
    ((sortBy_perm (staleLe st)
      (ku.filter (fun k => staleCond (t - sd * 86400) t
        (lookupState st k)))).nodup_iff).mpr (hnd.filter _)
  have hcode : pick_today_permits t e2d cd sd limit ownership ku st
      = (dedupF [] (recentKeys (e2d (t - cd * 86400)) ownership
          ++ (staleSorted (t - sd * 86400) t ku st).take limit)).take limit := by
    show combineLoop limit [] [] _ = _
    rw [combineLoop_eq_take limit _ [] []
      (by simp only [List.length_nil]; omega)]
    simp
  constructor
  · rw [hcode]
    exact dedup_take_truncate _ _ limit hBnd
  · rw [hcode]
    exact List.length_take_le _ _

/-- Witness for pick_today_permits_spec: the spec example — changed
keys [B, A], stale keys [C, D], limit 3 — where the selection is
[B, A, C]. -/
theorem pick_today_permits_spec_witness :
    (1 ≤ 3 ∧ (["C", "D"] : List String).Nodup)
    ∧ pick_today_permits 0 (fun _ => ['0']) 0 0 3
        [⟨"B", ['9']⟩, ⟨"A", ['9']⟩] ["C", "D"] []
      = selectorSpec 0 (fun _ => ['0']) 0 0 3
          [⟨"B", ['9']⟩, ⟨"A", ['9']⟩] ["C", "D"] []
    ∧ (pick_today_permits 0 (fun _ => ['0']) 0 0 3
        [⟨"B", ['9']⟩, ⟨"A", ['9']⟩] ["C", "D"] []).length ≤ 3 :=
  ⟨⟨by norm_num, by decide⟩,
   pick_today_permits_spec 0 (fun _ => ['0']) 0 0 3
     [⟨"B", ['9']⟩, ⟨"A", ['9']⟩] ["C", "D"] [] (by norm_num) (by decide)⟩

end AquaHistorikk
